import Mathlib

/-!
Verification development for the dices-rs repository.

Shallow embedding of the core of the program:

* the dice data model and rolling engine (src/dice/mod.rs, src/dice/result.rs,
  src/dice/internal.rs),
* the nom-based dice grammar parser (src/dice/parse.rs),
* the command resolver / compiler (src/compiler/mod.rs) over the command
  registry (src/engine/mod.rs).

Randomness is modelled by threading an explicit list of pre-drawn values:
each call of internal_roll (src/dice/internal.rs) consumes the next element
of the list.  internal_roll on a die of size s produces a value in [1, s];
theorems that need this range state it as a hypothesis on the draw list.
A roll that needs more draws than the list provides is modelled as none
(the model ran out of entropy); all theorems only look at runs where the
roll succeeds.

Machine integers: usize/isize are modelled as Nat/Int (no realistic input
approaches 2^64); the i8 bonus arithmetic of src/dice/parse.rs is modelled
with explicit wrapping to [-128, 127] (two's-complement wrap, the release
build semantics of Rust).
-/

/- ## Data model: src/dice/mod.rs and src/dice/result.rs -/

/-- The dice variants of src/dice/mod.rs: Constant(usize), Open(usize),
Regular(usize), Bonus(isize). -/
inductive Dice where
  | Constant (s : Nat)
  | Open (s : Nat)
  | Regular (s : Nat)
  | Bonus (b : Int)
deriving DecidableEq, Repr

/-- The Special flag of src/dice/result.rs: None | Fumble | Natural. -/
inductive Special where
  | None
  | Fumble
  | Natural
deriving DecidableEq, Repr

/-- The Res accumulator of src/dice/result.rs: rolled values, their sum,
the bonus accumulator and the special flag. -/
structure Res where
  list : List Nat
  sum : Int
  bonus : Int
  flag : Special
deriving DecidableEq, Repr

/-- Res::new(): empty list, zero sum and bonus, flag None. -/
def Res.new : Res := ⟨[], 0, 0, Special.None⟩

/-- Res::append(v): push v on list and add it to sum. -/
def Res.append (r : Res) (v : Nat) : Res :=
  { r with list := r.list ++ [v], sum := r.sum + (v : Int) }

/-- impl Add for Res (src/dice/result.rs lines 82-97): concatenate the
lists, add the sums and bonuses, reset the flag to None. -/
def Res.add (a b : Res) : Res :=
  { list := a.list ++ b.list
    sum := a.sum + b.sum
    bonus := a.bonus + b.bonus
    flag := Special.None }

/-- A DiceSet is a vector of Dice (src/dice/mod.rs line 127). -/
structure DiceSet where
  terms : List Dice
deriving DecidableEq, Repr

/- ## Rolling engine: impl Rollable (src/dice/mod.rs lines 82-123, 157-168) -/

/-- The reroll loop of the Open arm (src/dice/mod.rs lines 103-114): draw,
append the draw, stop as soon as the draw differs from the size.  The draw
list supplies the successive internal_roll results; an exhausted list is
modelled as none. -/
def openLoop (s : Nat) (r : Res) : List Nat → Option (Res × List Nat)
  | [] => none
  | d :: ds =>
      let r2 := r.append d
      if d ≠ s then some (r2, ds) else openLoop s r2 ds

/-- impl Rollable for Dice (src/dice/mod.rs lines 82-123).  Constant appends
its size; Regular draws once and sets the flag (Fumble on a 1, Natural
otherwise); Open runs the reroll loop; Bonus adds its value to sum
(line 116, r.sum += s) and stores it in bonus (line 117, r.bonus = s). -/
def Dice.roll (d : Dice) (draws : List Nat) : Option (Res × List Nat) :=
  match d with
  | Dice.Constant s => some (Res.new.append s, draws)
  | Dice.Regular _ =>
      match draws with
      | [] => none
      | v :: ds =>
          let r := Res.new
          let r := if v = 1 then { r with flag := Special.Fumble }
                   else { r with flag := Special.Natural }
          some (r.append v, ds)
  | Dice.Open s => openLoop s Res.new draws
  | Dice.Bonus b =>
      some ({ Res.new with sum := Res.new.sum + b, bonus := b }, draws)

/-- Roll every die of a list in order, threading the draw list, and collect
the individual results (the .map(|d| d.roll()) part of DiceSet::roll). -/
def rollAll : List Dice → List Nat → Option (List Res × List Nat)
  | [], ds => some ([], ds)
  | d :: rest, ds =>
      match d.roll ds with
      | none => none
      | some (r, ds2) =>
          match rollAll rest ds2 with
          | none => none
          | some (rs, ds3) => some (r :: rs, ds3)

/-- impl Rollable for DiceSet (src/dice/mod.rs lines 157-168): roll every
die and fold the results with Add starting from Res::new(). -/
def DiceSet.roll (s : DiceSet) (draws : List Nat) : Option Res :=
  match rollAll s.terms draws with
  | none => none
  | some (rs, _) => some (rs.foldl Res.add Res.new)

example : Dice.roll (Dice.Regular 6) [3] =
    some (⟨[3], 3, 0, Special.Natural⟩, []) := by decide

example : Dice.roll (Dice.Open 6) [6, 6, 2] =
    some (⟨[6, 6, 2], 14, 0, Special.None⟩, []) := by decide

example : DiceSet.roll ⟨[Dice.Regular 10, Dice.Regular 10, Dice.Bonus 2]⟩ [7, 4] =
    some ⟨[7, 4], 13, 2, Special.None⟩ := by decide

/- ## Dice grammar parser: src/dice/parse.rs

nom parsers over a list of characters.  A parser returns none on failure
and some (remaining input, value) on success, mirroring IResult.  -/

/-- Parser input. -/
abbrev Input := List Char

/-- u32::MAX, the bound of nom's character::complete::u32 size parser. -/
def U32MAX : Nat := 4294967295

/-- Numeric value of a list of ASCII digits (most significant first). -/
def digitsVal (ds : Input) : Nat :=
  ds.foldl (fun a c => 10 * a + (c.toNat - 48)) 0

/-- nom's unsigned decimal parsers (character::complete::u8 / u32): consume
one or more digits; fail if there is no digit or the value overflows the
bound of the integer type. -/
def parseBoundedNat (bound : Nat) (i : Input) : Option (Input × Nat) :=
  let ds := i.takeWhile Char.isDigit
  if ds = [] then none
  else
    let v := digitsVal ds
    if v ≤ bound then some (i.dropWhile Char.isDigit, v) else none

/-- Two's-complement wrap into the i8 range [-128, 127] (release-build
semantics of Rust i8 arithmetic). -/
def wrap8 (z : Int) : Int := (z + 128).emod 256 - 128

/-- The digit run of nom's character::complete::i8 after the optional sign
has been consumed: one or more digits whose value fits the i8 range
(magnitude at most 128 after a minus sign, 127 otherwise). -/
def parseI8digits (neg : Bool) (j : Input) : Option (Input × Int) :=
  if j.takeWhile Char.isDigit = [] then none
  else
    if neg then
      if digitsVal (j.takeWhile Char.isDigit) ≤ 128 then
        some (j.dropWhile Char.isDigit, -(digitsVal (j.takeWhile Char.isDigit) : Int))
      else none
    else
      if digitsVal (j.takeWhile Char.isDigit) ≤ 127 then
        some (j.dropWhile Char.isDigit, (digitsVal (j.takeWhile Char.isDigit) : Int))
      else none

/-- nom's character::complete::i8: an optional sign followed by digits,
failing when the value does not fit in i8. -/
def parseI8 : Input → Option (Input × Int)
  | c :: rest =>
      if c = '-' then parseI8digits true rest
      else if c = '+' then parseI8digits false rest
      else parseI8digits false (c :: rest)
  | [] => parseI8digits false []

/-- parse_dice (src/dice/parse.rs lines 30-33): a 'd' or 'D' followed by a
u32 size, yielding Regular(size). -/
def parse_dice (i : Input) : Option (Input × Dice) :=
  match i with
  | c :: rest =>
      if c = 'd' ∨ c = 'D' then
        match parseBoundedNat U32MAX rest with
        | none => none
        | some (r, v) => some (r, Dice.Regular v)
      else none
  | [] => none

/-- parse_open (src/dice/parse.rs lines 36-40): same token, yielding a
one-element DiceSet holding Open(size). -/
def parse_open (i : Input) : Option (Input × DiceSet) :=
  match i with
  | c :: rest =>
      if c = 'd' ∨ c = 'D' then
        match parseBoundedNat U32MAX rest with
        | none => none
        | some (r, v) => some (r, ⟨[Dice.Open v]⟩)
      else none
  | [] => none

/-- parse_ndices (src/dice/parse.rs lines 42-50): an optional u8 count
(defaulting to 1) followed by parse_dice; the DiceSet holds count copies of
the die. -/
def parse_ndices (i : Input) : Option (Input × DiceSet) :=
  let (i1, n?) :=
    match parseBoundedNat 255 i with
    | some (r, v) => (r, some v)
    | none => (i, (none : Option Nat))
  match parse_dice i1 with
  | none => none
  | some (r, d) => some (r, ⟨List.replicate (n?.getD 1) d⟩)

/-- parse_bonus (src/dice/parse.rs lines 52-62): a '+' or '-' followed by an
i8; a leading '-' negates the (itself possibly signed) i8 value.  The
negation is i8 negation, hence the wrap. -/
def parse_bonus : Input → Option (Input × Int)
  | c :: rest =>
      if c = '+' ∨ c = '-' then
        match parseI8 rest with
        | none => none
        | some (r, v) => some (r, if c = '-' then wrap8 (-v) else v)
      else none
  | [] => none

/-- One iteration of the fold_many0 body of parse_nbonus: space0 (spaces and
tabs) then parse_bonus; when parse_bonus fails the consumed spaces are given
back, which the definition reflects by running on the original input. -/
def bonus_term (i : Input) : Option (Input × Int) :=
  parse_bonus (i.dropWhile (fun c => c = ' ' ∨ c = '\t'))

/-- fold_many0(preceded(space0, parse_bonus)) collecting the values into a
list.  Fuel-indexed; every successful bonus_term consumes at least the sign
character, so input length + 1 units of fuel always suffice. -/
def manyBonusAux : Nat → Input → Input × List Int
  | 0, i => (i, [])
  | fuel + 1, i =>
      match bonus_term i with
      | none => (i, [])
      | some (r, v) =>
          let (r2, vs) := manyBonusAux fuel r
          (r2, v :: vs)

/-- The fold_many0 loop of parse_nbonus with its fuel instantiated. -/
def manyBonus (i : Input) : Input × List Int :=
  manyBonusAux (i.length + 1) i

/-- The sum the parse_nbonus closure computes: itertools sum1 over i8
(0 for the empty list), with i8 wrapping addition. -/
def sum1 (vs : List Int) : Int :=
  vs.foldl (fun a b => wrap8 (a + b)) 0

/-- parse_nbonus (src/dice/parse.rs lines 64-78): all bonus terms, summed. -/
def parse_nbonus (i : Input) : Option (Input × Int) :=
  let (r, vs) := manyBonus i
  some (r, sum1 vs)

/-- add_bonus (src/dice/parse.rs lines 82-89): append Bonus(b) to the
DiceSet only when b is nonzero. -/
def add_bonus (ds : DiceSet) (b : Int) : DiceSet :=
  if b ≠ 0 then ⟨ds.terms ++ [Dice.Bonus b]⟩ else ds

/-- parse_with_bonus (src/dice/parse.rs lines 95-97): parse_ndices, then
parse_nbonus, then add_bonus. -/
def parse_with_bonus (i : Input) : Option (Input × DiceSet) :=
  match parse_ndices i with
  | none => none
  | some (r1, ds) =>
      match parse_nbonus r1 with
      | none => none
      | some (r2, b) => some (r2, add_bonus ds b)

/-- parse_open_bonus (src/dice/parse.rs lines 91-93). -/
def parse_open_bonus (i : Input) : Option (Input × DiceSet) :=
  match parse_open i with
  | none => none
  | some (r1, ds) =>
      match parse_nbonus r1 with
      | none => none
      | some (r2, b) => some (r2, add_bonus ds b)

/-- DiceSet::parse (src/dice/mod.rs lines 149-154): run parse_with_bonus
and keep only the DiceSet, discarding whatever input remains; a parser
failure becomes the string error (modelled as none). -/
def DiceSet.parse (i : Input) : Option DiceSet :=
  match parse_with_bonus i with
  | none => none
  | some (_, ds) => some ds

example : DiceSet.parse "3D6 +1".toList =
    some ⟨[Dice.Regular 6, Dice.Regular 6, Dice.Regular 6, Dice.Bonus 1]⟩ := by decide

example : DiceSet.parse "D100".toList = some ⟨[Dice.Regular 100]⟩ := by decide

example : DiceSet.parse "D8 -1".toList =
    some ⟨[Dice.Regular 8, Dice.Bonus (-1)]⟩ := by decide

example : DiceSet.parse "D6 +1 +2 -3".toList = some ⟨[Dice.Regular 6]⟩ := by decide

example : DiceSet.parse "D6 xyz".toList = some ⟨[Dice.Regular 6]⟩ := by decide

example : DiceSet.parse "3x6".toList = none := by decide

example : DiceSet.parse "D6 +127 +127".toList =
    some ⟨[Dice.Regular 6, Dice.Bonus (-2)]⟩ := by decide

example : DiceSet.parse "1D4294967296".toList = none := by decide

/- ## Command resolver: src/compiler/mod.rs over src/engine/mod.rs -/

/-- Modelled from the spec: the CoreOp closed enum of directly executable
built-ins (Dice, Open).  Its Rust definition (engine/cmd.rs, the Cmd enum)
is not part of the snapshot; only its payload role matters here. -/
inductive Cmd where
  | Dice
  | Open
deriving DecidableEq, Repr

/-- The Command enum of src/engine/mod.rs lines 43-60. -/
inductive Command where
  | Macro (name : List Char) (cmd : List Char)
  | Builtin (name : List Char) (cmd : Cmd)
  | Alias (name : List Char) (cmd : List Char)
  | Comment
  | Exit
  | List
  | Aliases
  | Macros
deriving DecidableEq, Repr

namespace Compiler

/-- The Action enum of src/compiler/mod.rs lines 27-40. -/
inductive Action where
  | Aliases
  | Error (msg : List Char)
  | Execute (cmd : Command) (input : List Char)
  | Exit
  | List
  | Macros
deriving DecidableEq, Repr

/-- The command registry: the HashMap<String, Command> of the Compiler,
modelled as an association list (lookup returns the first binding). -/
abbrev Registry := List (List Char × Command)

/-- HashMap::get. -/
def getCmd (r : Registry) (n : List Char) : Option Command :=
  (r.find? (fun p => p.1 == n)).map Prod.snd

/-- nom alphanumeric1 (the parse_keyword of Compiler::parse): one or more
ASCII alphanumeric characters; returns (remaining input, keyword). -/
def parse_keyword (i : List Char) : Option (List Char × List Char) :=
  let ks := i.takeWhile Char.isAlphanum
  if ks = [] then none else some (i.dropWhile Char.isAlphanum, ks)

/-- Compiler::parse (src/compiler/mod.rs lines 111-137): extract the leading
keyword and look it up in the registry. -/
def cparse (reg : Registry) (i : List Char) : Except (List Char) (List Char × Command) :=
  match parse_keyword i with
  | none => Except.error "invalid command".toList
  | some (rest, name) =>
      match getCmd reg name with
      | some cmd => Except.ok (rest, cmd)
      | none => Except.error "unknown command".toList

/-- The eyre message of the cycle branch of Compiler::recurse. -/
def msgCycle (n : List Char) : List Char :=
  "recursion cycle detected for command: ".toList ++ n

/-- The eyre message of the depth branch of Compiler::recurse. -/
def msgMaxRec (i : List Char) : List Char :=
  "max recursion level reached for ".toList ++ i

/-- Compiler::MAX_RECUR (src/compiler/mod.rs line 59). -/
def MAX_RECUR : Nat := 10

/-- The body of one level of Compiler::recurse (src/compiler/mod.rs lines
144-203).  Parse the keyword; for an Alias or Macro first fail if its name
was already seen (cycle), otherwise record the name and hand the body
concatenated with the remaining arguments to the continuation k (which
performs the decrement-check-recurse of the source); Builtin and the four
control commands end the resolution; a Comment is the impossible case. -/
def recurseBody (reg : Registry) (input : List Char) (seen : List (List Char))
    (k : List Char → List (List Char) → Except (List Char) (List Char × Command)) :
    Except (List Char) (List Char × Command) :=
  match cparse reg input with
  | Except.error e => Except.error e
  | Except.ok (rest, command) =>
      let name : List Char :=
        match command with
        | Command.Alias n _ => n
        | Command.Macro n _ => n
        | _ => []
      if name ≠ [] ∧ name ∈ seen then
        Except.error (msgCycle name)
      else
        let seen2 := if name = [] then seen else name :: seen
        match command with
        | Command.Alias _ cmd => k (cmd ++ rest) seen2
        | Command.Macro _ cmd => k (cmd ++ rest) seen2
        | Command.Comment => Except.error "impossible in recurse".toList
        | other => Except.ok (rest, other)

/-- The recursion of Compiler::recurse over the depth bound (already
unwrapped to a plain Nat): after an expansion the source decrements the
bound and errors when it reaches 0, so an expansion with bound 0 or 1
yields the max-recursion error on the substituted input, and otherwise the
resolution continues with the decremented bound.  (The source decrements a
usize, so a bound that is already 0 would underflow there; recurse is only
ever entered with the positive MAX_RECUR, and the model errors on that
unreachable case too.) -/
def recurseAux (reg : Registry) : Nat → List Char → List (List Char) →
    Except (List Char) (List Char × Command)
  | 0, input, seen =>
      recurseBody reg input seen (fun i2 _ => Except.error (msgMaxRec i2))
  | 1, input, seen =>
      recurseBody reg input seen (fun i2 _ => Except.error (msgMaxRec i2))
  | m + 2, input, seen =>
      recurseBody reg input seen (fun i2 s2 => recurseAux reg (m + 1) i2 s2)

/-- Compiler::recurse with its Option<usize> depth argument
(None defaults to MAX_RECUR, matching max.unwrap_or). -/
def recurse (reg : Registry) (input : List Char) (max : Option Nat)
    (seen : List (List Char)) : Except (List Char) (List Char × Command) :=
  recurseAux reg (max.getD MAX_RECUR) input seen

/-- Compiler::compile (src/compiler/mod.rs lines 71-107): run recurse with
an empty seen set and package the outcome as an Action. -/
def compile (reg : Registry) (input : List Char) : Action :=
  match recurse reg input none [] with
  | Except.error e => Action.Error e
  | Except.ok (rest, cmd) =>
      match cmd with
      | Command.Exit => Action.Exit
      | Command.List => Action.List
      | Command.Aliases => Action.Aliases
      | Command.Macros => Action.Macros
      | Command.Macro _ _ => Action.Error "no macro".toList
      | Command.Alias _ _ => Action.Error "no alias".toList
      | Command.Builtin n c => Action.Execute (Command.Builtin n c) rest
      | Command.Comment => Action.Error "impossible command".toList

example : compile [("exit".toList, Command.Exit)] "exit".toList = Action.Exit := by decide

example :
    compile [("A".toList, Command.Alias "A".toList "B".toList),
             ("B".toList, Command.Alias "B".toList "A".toList)] "A".toList =
      Action.Error (msgCycle "A".toList) := by decide

example : compile [] "frobnicate".toList =
    Action.Error "unknown command".toList := by decide

end Compiler

/- ## Lemmas about the rolling engine -/

/-- Folding Res.add over a list of results starting from any accumulator:
the lists concatenate, the sums and bonuses add, and the flag is reset to
None as soon as at least one result is folded in. -/
theorem foldl_add_spec (rs : List Res) : ∀ acc : Res,
    rs.foldl Res.add acc =
      { list := acc.list ++ (rs.map Res.list).flatten
        sum := acc.sum + (rs.map Res.sum).sum
        bonus := acc.bonus + (rs.map Res.bonus).sum
        flag := if rs.isEmpty then acc.flag else Special.None } := by
  induction rs with
  | nil => intro acc; simp
  | cons r rest ih =>
      intro acc
      simp [List.foldl, ih, Res.add, List.append_assoc, add_assoc]

/-- The open-dice reroll loop, relative to an arbitrary accumulator: it
emits a nonempty block of draws, all but the last equal to the size, the
last strictly below it (given in-range draws), and adds exactly the emitted
draws to list and sum, leaving bonus and flag untouched. -/
theorem openLoop_spec (s : Nat) : ∀ (draws : List Nat) (r r' : Res) (rest : List Nat),
    (∀ d ∈ draws, d ≤ s) →
    openLoop s r draws = some (r', rest) →
    ∃ pre last, r'.list = r.list ++ pre ++ [last] ∧
      r'.sum = r.sum + ((pre.sum + last : Nat) : Int) ∧
      r'.bonus = r.bonus ∧ r'.flag = r.flag ∧
      (∀ x ∈ pre, x = s) ∧ last < s := by
  intro draws
  induction draws with
  | nil => intro r r' rest hb h; simp [openLoop] at h
  | cons d ds ih =>
      intro r r' rest hb h
      by_cases hd : d = s
      · subst hd
        simp only [openLoop, ne_eq, not_true_eq_false, if_neg, ite_false,
          not_not] at h
        obtain ⟨pre, last, hlist, hsum, hbonus, hflag, hpre, hlast⟩ :=
          ih (r.append d) r' rest (fun x hx => hb x (List.mem_cons_of_mem _ hx)) h
        refine ⟨d :: pre, last, ?_, ?_, ?_, ?_, ?_, hlast⟩
        · simp [hlist, Res.append, List.append_assoc]
        · simp [hsum, Res.append]; ring
        · simpa [Res.append] using hbonus
        · simpa [Res.append] using hflag
        · intro x hx
          rcases List.mem_cons.mp hx with h1 | h2
          · exact h1
          · exact hpre x h2
      · simp only [openLoop, ne_eq, hd, not_false_eq_true, if_pos,
          Option.some.injEq, Prod.mk.injEq] at h
        obtain ⟨hr, _⟩ := h
        refine ⟨[], d, ?_, ?_, ?_, ?_, ?_, ?_⟩
        · simp [← hr, Res.append]
        · simp [← hr, Res.append]
        · simp [← hr, Res.append]
        · simp [← hr, Res.append]
        · intro x hx; cases hx
        · exact lt_of_le_of_ne (hb d (List.mem_cons_self d ds)) hd

/- ## Lemmas about the dice grammar parser -/

/-- The ASCII character of a decimal digit. -/
def digitChar (d : Nat) : Char := Char.ofNat (48 + d)

/-- Decimal rendering of a natural number, most significant digit first. -/
def renderNat (n : Nat) : List Char :=
  if n = 0 then ['0'] else (Nat.digits 10 n).reverse.map digitChar

/-- Does the input not start with a digit (in particular, is it empty)? -/
def headNotDigit : Input → Bool
  | [] => true
  | c :: _ => !c.isDigit

theorem digitChar_toNat {d : Nat} (h : d < 10) : (digitChar d).toNat = 48 + d := by
  interval_cases d <;> decide

theorem digitChar_isDigit {d : Nat} (h : d < 10) : (digitChar d).isDigit = true := by
  interval_cases d <;> decide

theorem takeWhile_append_of_all {α} (p : α → Bool) :
    ∀ (xs t : List α), (∀ x ∈ xs, p x = true) →
      (xs ++ t).takeWhile p = xs ++ t.takeWhile p := by
  intro xs
  induction xs with
  | nil => intro t _; simp
  | cons x xs ih =>
      intro t hall
      have hx : p x = true := hall x (List.mem_cons_self x xs)
      simp [List.takeWhile_cons, hx, ih t (fun y hy => hall y (List.mem_cons_of_mem _ hy))]

theorem dropWhile_append_of_all {α} (p : α → Bool) :
    ∀ (xs t : List α), (∀ x ∈ xs, p x = true) →
      (xs ++ t).dropWhile p = t.dropWhile p := by
  intro xs
  induction xs with
  | nil => intro t _; simp
  | cons x xs ih =>
      intro t hall
      have hx : p x = true := hall x (List.mem_cons_self x xs)
      simp [List.dropWhile_cons, hx, ih t (fun y hy => hall y (List.mem_cons_of_mem _ hy))]

theorem takeWhile_isDigit_of_headNot {t : Input} (h : headNotDigit t = true) :
    t.takeWhile Char.isDigit = [] := by
  cases t with
  | nil => rfl
  | cons c cs => simp [headNotDigit] at h; simp [List.takeWhile_cons, h]

theorem dropWhile_isDigit_of_headNot {t : Input} (h : headNotDigit t = true) :
    t.dropWhile Char.isDigit = t := by
  cases t with
  | nil => rfl
  | cons c cs => simp [headNotDigit] at h; simp [List.dropWhile_cons, h]

theorem renderNat_all_digits (n : Nat) : ∀ c ∈ renderNat n, c.isDigit = true := by
  intro c hc
  unfold renderNat at hc
  by_cases h : n = 0
  · simp [h] at hc; simp [hc]
  · simp [h] at hc
    obtain ⟨d, hd, rfl⟩ := hc
    exact digitChar_isDigit (Nat.digits_lt_base (by norm_num) hd)

theorem renderNat_ne_nil (n : Nat) : renderNat n ≠ [] := by
  unfold renderNat
  by_cases h : n = 0
  · simp [h]
  · simp [h, Nat.digits_ne_nil_iff_ne_zero]

theorem digitsVal_aux :
    ∀ (ds : List Nat), (∀ d ∈ ds, d < 10) → ∀ acc : Nat,
      (ds.reverse.map digitChar).foldl (fun a c => 10 * a + (c.toNat - 48)) acc =
        acc * 10 ^ ds.length + Nat.ofDigits 10 ds := by
  intro ds
  induction ds with
  | nil => intro _ acc; simp [Nat.ofDigits]
  | cons d ds ih =>
      intro hall acc
      have hd : d < 10 := hall d (List.mem_cons_self d ds)
      have hds : ∀ x ∈ ds, x < 10 := fun x hx => hall x (List.mem_cons_of_mem _ hx)
      simp only [List.reverse_cons, List.map_append, List.foldl_append, ih hds acc,
        List.map_cons, List.map_nil, List.foldl_cons, List.foldl_nil,
        digitChar_toNat hd, List.length_cons, Nat.ofDigits_cons]
      have : 48 + d - 48 = d := by omega
      rw [this]
      ring

theorem digitsVal_renderNat (n : Nat) : digitsVal (renderNat n) = n := by
  by_cases h : n = 0
  · subst h; decide
  · unfold digitsVal renderNat
    simp only [h, if_false]
    rw [digitsVal_aux (Nat.digits 10 n)
      (fun d hd => Nat.digits_lt_base (by norm_num) hd) 0]
    simp [Nat.ofDigits_digits]

/-- nom's bounded unsigned parser on a rendered number followed by input
that does not begin with a digit. -/
theorem parseBoundedNat_render {bound n : Nat} (t : Input) (hb : n ≤ bound)
    (ht : headNotDigit t = true) :
    parseBoundedNat bound (renderNat n ++ t) = some (t, n) := by
  unfold parseBoundedNat
  rw [takeWhile_append_of_all _ _ _ (renderNat_all_digits n),
    takeWhile_isDigit_of_headNot ht, List.append_nil,
    dropWhile_append_of_all _ _ _ (renderNat_all_digits n),
    dropWhile_isDigit_of_headNot ht]
  simp [renderNat_ne_nil, digitsVal_renderNat, hb]

/-- parse_dice on a 'D', a rendered size and a non-digit-headed tail. -/
theorem parse_dice_render {s : Nat} (t : Input) (hs : s ≤ U32MAX)
    (ht : headNotDigit t = true) :
    parse_dice ('D' :: (renderNat s ++ t)) = some (t, Dice.Regular s) := by
  simp [parse_dice, parseBoundedNat_render t hs ht]

/-- parse_ndices with the count omitted: the count defaults to 1. -/
theorem parse_ndices_noCount {s : Nat} (t : Input) (hs : s ≤ U32MAX)
    (ht : headNotDigit t = true) :
    parse_ndices ('D' :: (renderNat s ++ t)) = some (t, ⟨[Dice.Regular s]⟩) := by
  unfold parse_ndices
  have h255 : parseBoundedNat 255 ('D' :: (renderNat s ++ t)) = none := by
    unfold parseBoundedNat
    simp [List.takeWhile_cons]
  rw [h255]
  simp [parse_dice_render t hs ht]

/-- parse_ndices with an explicit count: count copies of the die. -/
theorem parse_ndices_render {n s : Nat} (t : Input) (hn : n ≤ 255) (hs : s ≤ U32MAX)
    (ht : headNotDigit t = true) :
    parse_ndices (renderNat n ++ 'D' :: (renderNat s ++ t)) =
      some (t, ⟨List.replicate n (Dice.Regular s)⟩) := by
  unfold parse_ndices
  have hD : headNotDigit ('D' :: (renderNat s ++ t)) = true := by
    have hd : ('D').isDigit = false := by decide
    simp [headNotDigit, hd]
  rw [parseBoundedNat_render _ hn hD]
  simp [parse_dice_render t hs ht]

/-- parse_nbonus on input whose first token is not a bonus term: no terms,
net bonus 0, nothing consumed. -/
theorem parse_nbonus_stuck {t : Input} (hbt : bonus_term t = none) :
    parse_nbonus t = some (t, 0) := by
  unfold parse_nbonus manyBonus
  simp [manyBonusAux, hbt, sum1]

/- ## Claims C1, C5, C9, C10: the rolling engine -/

/-- Claim C1, counterexample: rolling Bonus(1) does change the sum
accumulator — the per-term Res has sum 1, not 0, and the same sum shows up
when a DiceSet containing only Bonus(1) is rolled; the claim says the sum is
never changed. -/
theorem c1_bonus_counterexample :
    Dice.roll (Dice.Bonus 1) [] = some (⟨[], 1, 1, Special.None⟩, []) ∧
    DiceSet.roll ⟨[Dice.Bonus 1]⟩ [] = some ⟨[], 1, 1, Special.None⟩ ∧
    (1 : Int) ≠ 0 := by decide

/-- Claim C1 as amended: for every DiceSet and every stream of draws,
rolling a Bonus(b) term adds b to the bonus accumulator and also adds b to
the sum accumulator (src/dice/mod.rs line 116, r.sum += s); it never appends
an element to rolls and consumes no draw. -/
theorem c1_bonus_roll_spec (b : Int) (draws : List Nat) :
    Dice.roll (Dice.Bonus b) draws =
      some ({ list := [], sum := b, bonus := b, flag := Special.None }, draws) := by
  simp [Dice.roll, Res.new]

/-- Claim C5: for every size and every in-range stream of draws, a
successful roll of Open(s) appends at least one element to rolls, every
appended element except the last equals s, the last is strictly below s,
and each draw is added to sum (the sum equals the total of the rolls);
bonus stays 0. -/
theorem c5_open_roll_spec (s : Nat) (draws : List Nat) (r : Res) (rest : List Nat)
    (hb : ∀ d ∈ draws, 1 ≤ d ∧ d ≤ s)
    (h : Dice.roll (Dice.Open s) draws = some (r, rest)) :
    (∃ pre last, r.list = pre ++ [last] ∧ (∀ x ∈ pre, x = s) ∧ last < s) ∧
    r.sum = ((r.list.sum : Nat) : Int) ∧ r.bonus = 0 := by
  have h2 : openLoop s Res.new draws = some (r, rest) := h
  obtain ⟨pre, last, hlist, hsum, hbonus, _, hpre, hlast⟩ :=
    openLoop_spec s draws Res.new r rest (fun d hd => (hb d hd).2) h2
  refine ⟨⟨pre, last, by simpa using hlist, hpre, hlast⟩, ?_, by simpa using hbonus⟩
  rw [hsum, hlist]
  simp [Res.new]

/-- Witness for c5_open_roll_spec at s = 6 with draws 6, 6, 3. -/
theorem c5_open_roll_spec_witness :
    (∃ pre last, (⟨[6, 6, 3], 15, 0, Special.None⟩ : Res).list = pre ++ [last] ∧
       (∀ x ∈ pre, x = 6) ∧ last < 6) ∧
    (⟨[6, 6, 3], 15, 0, Special.None⟩ : Res).sum =
      (((⟨[6, 6, 3], 15, 0, Special.None⟩ : Res).list.sum : Nat) : Int) ∧
    (⟨[6, 6, 3], 15, 0, Special.None⟩ : Res).bonus = 0 :=
  c5_open_roll_spec 6 [6, 6, 3] ⟨[6, 6, 3], 15, 0, Special.None⟩ []
    (by decide) (by decide)

/-- Claim C9: rolling a non-empty DiceSet equals the fold of the per-term
results — rolls lists concatenated in term order, sums and bonuses summed,
and the combined flag is None. -/
theorem c9_roll_set_is_fold (s : DiceSet) (draws : List Nat) (rs : List Res)
    (rest : List Nat) (hne : s.terms ≠ [])
    (h : rollAll s.terms draws = some (rs, rest)) :
    DiceSet.roll s draws =
      some { list := (rs.map Res.list).flatten
             sum := (rs.map Res.sum).sum
             bonus := (rs.map Res.bonus).sum
             flag := Special.None } := by
  unfold DiceSet.roll
  rw [h]
  simp [foldl_add_spec, Res.new]

/-- Witness for c9_roll_set_is_fold on [Regular(6), Regular(6), Bonus(2)]
with draws 4 and 5. -/
theorem c9_roll_set_is_fold_witness :
    DiceSet.roll ⟨[Dice.Regular 6, Dice.Regular 6, Dice.Bonus 2]⟩ [4, 5] =
      some { list := (([⟨[4], 4, 0, Special.Natural⟩, ⟨[5], 5, 0, Special.Natural⟩,
                       ⟨[], 2, 2, Special.None⟩] : List Res).map Res.list).flatten
             sum := (([⟨[4], 4, 0, Special.Natural⟩, ⟨[5], 5, 0, Special.Natural⟩,
                       ⟨[], 2, 2, Special.None⟩] : List Res).map Res.sum).sum
             bonus := (([⟨[4], 4, 0, Special.Natural⟩, ⟨[5], 5, 0, Special.Natural⟩,
                        ⟨[], 2, 2, Special.None⟩] : List Res).map Res.bonus).sum
             flag := Special.None } :=
  c9_roll_set_is_fold ⟨[Dice.Regular 6, Dice.Regular 6, Dice.Bonus 2]⟩ [4, 5]
    [⟨[4], 4, 0, Special.Natural⟩, ⟨[5], 5, 0, Special.Natural⟩, ⟨[], 2, 2, Special.None⟩]
    [] (by decide) (by decide)

/-- Claim C10: whatever the DiceSet (a single Regular die included) and the
draws, a successful DiceSet::roll always returns a Res whose flag is None —
the Fumble/Natural flag of an individual die is erased by the fold. -/
theorem c10_roll_set_flag_none (s : DiceSet) (draws : List Nat) (r : Res)
    (h : DiceSet.roll s draws = some r) : r.flag = Special.None := by
  unfold DiceSet.roll at h
  cases hra : rollAll s.terms draws with
  | none => rw [hra] at h; cases h
  | some p =>
      rw [hra] at h
      obtain ⟨rs, rest⟩ := p
      have h2 : some (rs.foldl Res.add Res.new) = some r := h
      rw [← Option.some.inj h2, foldl_add_spec]
      simp [Res.new]

/-- Witness for c10_roll_set_flag_none: a single Regular(6) die rolled with
draw 1 (a fumble for the die itself) still yields flag None for the set. -/
theorem c10_roll_set_flag_none_witness :
    (⟨[1], 1, 0, Special.None⟩ : Res).flag = Special.None :=
  c10_roll_set_flag_none ⟨[Dice.Regular 6]⟩ [1] ⟨[1], 1, 0, Special.None⟩ (by decide)

/- ## Claims C2, C6, C7, C8: the dice grammar parser -/

/-- Claim C2, counterexample: on "D6 xyz" the prefix "D6" parses and the
trailing " xyz" is not a valid bonus term, yet DiceSet::parse succeeds with
the prefix result instead of returning a parse error. -/
theorem c2_trailing_junk_counterexample :
    DiceSet.parse "D6 xyz".toList = some ⟨[Dice.Regular 6]⟩ ∧
    DiceSet.parse "D6 xyz".toList ≠ none := by decide

theorem dropWhile_length_le {α} (p : α → Bool) :
    ∀ l : List α, (l.dropWhile p).length ≤ l.length := by
  intro l
  induction l with
  | nil => simp
  | cons x xs ih =>
      rw [List.dropWhile_cons]
      by_cases h : p x <;> simp [h] <;> omega

theorem parseI8digits_length_le {neg : Bool} {j r : Input} {v : Int}
    (h : parseI8digits neg j = some (r, v)) : r.length ≤ j.length := by
  unfold parseI8digits at h
  split_ifs at h
  all_goals cases h
  all_goals exact dropWhile_length_le _ _

theorem parseI8_length_le {i r : Input} {v : Int} (h : parseI8 i = some (r, v)) :
    r.length ≤ i.length := by
  rcases i with _ | ⟨c, rest⟩
  · rw [parseI8] at h
    exact parseI8digits_length_le h
  · rw [parseI8] at h
    split_ifs at h
    · exact le_trans (parseI8digits_length_le h) (by simp)
    · exact le_trans (parseI8digits_length_le h) (by simp)
    · exact parseI8digits_length_le h

/-- A successful bonus term consumes at least the sign character. -/
theorem bonus_term_length_lt {i r : Input} {v : Int} (h : bonus_term i = some (r, v)) :
    r.length < i.length := by
  unfold bonus_term at h
  have hjl : (i.dropWhile (fun c => c = ' ' ∨ c = '\t')).length ≤ i.length :=
    dropWhile_length_le _ i
  rcases hk : i.dropWhile (fun c => c = ' ' ∨ c = '\t') with _ | ⟨c, rest⟩
  · rw [hk, parse_bonus] at h
    exact Option.noConfusion h
  · rw [hk] at hjl
    rw [hk, parse_bonus] at h
    by_cases hc : c = '+' ∨ c = '-'
    · rw [if_pos hc] at h
      cases hp : parseI8 rest with
      | none =>
          rw [hp] at h
          exact Option.noConfusion h
      | some pr =>
          obtain ⟨r0, v0⟩ := pr
          rw [hp] at h
          have h2 : some (r0, if c = '-' then wrap8 (-v0) else v0) = some (r, v) := h
          have hr : r0 = r := congrArg Prod.fst (Option.some.inj h2)
          have h0 := parseI8_length_le hp
          simp only [List.length_cons] at hjl
          subst hr
          omega
    · rw [if_neg hc] at h
      exact Option.noConfusion h

/-- With enough fuel, the fold_many0 loop of parse_nbonus stops only
because the next bonus term fails to parse: the unconsumed remainder is
never a valid bonus term. -/
theorem manyBonusAux_stops :
    ∀ (fuel : Nat) (i : Input), i.length < fuel →
      ∀ r vs, manyBonusAux fuel i = (r, vs) → bonus_term r = none := by
  intro fuel
  induction fuel with
  | zero => intro i hi; exact absurd hi (by omega)
  | succ f ih =>
      intro i hi r vs h
      simp only [manyBonusAux] at h
      cases hb : bonus_term i with
      | none =>
          rw [hb] at h
          have h2 : (i, ([] : List Int)) = (r, vs) := h
          have hr : i = r := congrArg Prod.fst h2
          exact hr ▸ hb
      | some p =>
          obtain ⟨r1, v⟩ := p
          rw [hb] at h
          have h2 : ((manyBonusAux f r1).1, v :: (manyBonusAux f r1).2) = (r, vs) := h
          have hr : (manyBonusAux f r1).1 = r := congrArg Prod.fst h2
          have hlt : r1.length < i.length := bonus_term_length_lt hb
          have hrec := ih r1 (by omega) (manyBonusAux f r1).1 (manyBonusAux f r1).2 rfl
          exact hr ▸ hrec

/-- The remainder returned by manyBonus is not a valid bonus term. -/
theorem manyBonus_stops {i r : Input} {vs : List Int} (h : manyBonus i = (r, vs)) :
    bonus_term r = none :=
  manyBonusAux_stops (i.length + 1) i (by omega) r vs h

/-- Claim C2 as amended: for every input string whose prefix parses as a
dice expression, DiceSet::parse succeeds with the DiceSet of that prefix
and silently discards the trailing characters — which are guaranteed not to
form a valid bonus term, since the bonus loop only stops on a failing term —
and it returns a parse error exactly when no prefix parses. -/
theorem c2_trailing_junk_ignored (i : Input) :
    (∀ rest ds, parse_with_bonus i = some (rest, ds) →
       DiceSet.parse i = some ds ∧ bonus_term rest = none) ∧
    (DiceSet.parse i = none ↔ parse_with_bonus i = none) := by
  constructor
  · intro rest ds h
    refine ⟨by simp [DiceSet.parse, h], ?_⟩
    unfold parse_with_bonus at h
    cases h1 : parse_ndices i with
    | none => rw [h1] at h; cases h
    | some p =>
        obtain ⟨r1, ds1⟩ := p
        rw [h1] at h
        cases h2 : manyBonus r1 with
        | mk r2 vs =>
            have h3 : parse_nbonus r1 = some (r2, sum1 vs) := by
              simp [parse_nbonus, h2]
            have h4 : (match parse_nbonus r1 with
                       | none => none
                       | some (r2, b) => some (r2, add_bonus ds1 b)) =
                some (rest, ds) := h
            rw [h3] at h4
            have h5 : some (r2, add_bonus ds1 (sum1 vs)) = some (rest, ds) := h4
            have hr : r2 = rest := congrArg Prod.fst (Option.some.inj h5)
            exact hr ▸ manyBonus_stops h2
  · cases hpb : parse_with_bonus i with
    | none => simp [DiceSet.parse, hpb]
    | some p => obtain ⟨r, ds⟩ := p; simp [DiceSet.parse, hpb]

/-- Witness for c2_trailing_junk_ignored on "3D6 +1 xyz": the prefix
"3D6 +1" parses, the trailing " xyz" is discarded and is itself not a valid
bonus term. -/
theorem c2_trailing_junk_ignored_witness :
    DiceSet.parse "3D6 +1 xyz".toList =
      some ⟨[Dice.Regular 6, Dice.Regular 6, Dice.Regular 6, Dice.Bonus 1]⟩ ∧
    bonus_term " xyz".toList = none :=
  (c2_trailing_junk_ignored "3D6 +1 xyz".toList).1 " xyz".toList
    ⟨[Dice.Regular 6, Dice.Regular 6, Dice.Regular 6, Dice.Bonus 1]⟩ (by decide)

/-- Claim C6, evaluation at the failing input: the net bonus of
"D6 +127 +127" is computed by summing i8 values; the mathematical token sum
is 254 but the stored bonus is the wrapped -2 (and with overflow checks on,
as in debug builds and cargo test, the addition panics instead). -/
theorem c6_bonus_sum_overflow :
    DiceSet.parse "D6 +127 +127".toList = some ⟨[Dice.Regular 6, Dice.Bonus (-2)]⟩ ∧
    (127 + 127 : Int) = 254 := by decide

/-- Claim C7, counterexample: the size is parsed with nom's u32, so the
size 4294967296 = 2^32 is a parse error rather than a Regular(4294967296)
term. -/
theorem c7_size_overflow_counterexample :
    DiceSet.parse "1D4294967296".toList = none ∧
    DiceSet.parse "1D4294967296".toList ≠ some ⟨[Dice.Regular 4294967296]⟩ := by decide

/-- Claim C7 as amended: for every size s that fits in a u32 and every
count n in [1, 99], parsing "nDs" yields exactly n Regular(s) terms in
order (and no Bonus term), and an omitted count defaults to 1: "Ds" parses
to the same result as "1Ds". -/
theorem c7_count_and_default (n s : Nat) (hn1 : 1 ≤ n) (hn : n ≤ 99) (hs : s ≤ U32MAX) :
    DiceSet.parse (renderNat n ++ 'D' :: renderNat s) =
      some ⟨List.replicate n (Dice.Regular s)⟩ ∧
    DiceSet.parse ('D' :: renderNat s) = DiceSet.parse (renderNat 1 ++ 'D' :: renderNat s) := by
  have hn255 : n ≤ 255 := le_trans hn (by norm_num)
  have hstuck : parse_nbonus ([] : Input) = some ([], 0) :=
    parse_nbonus_stuck (t := []) rfl
  constructor
  · have h1 := parse_ndices_render (n := n) (s := s) ([] : Input) hn255 hs rfl
    rw [List.append_nil] at h1
    simp [DiceSet.parse, parse_with_bonus, h1, hstuck, add_bonus]
  · have hL := parse_ndices_noCount (s := s) ([] : Input) hs rfl
    rw [List.append_nil] at hL
    have hR := parse_ndices_render (n := 1) (s := s) ([] : Input) (by norm_num) hs rfl
    rw [List.append_nil] at hR
    simp [DiceSet.parse, parse_with_bonus, hL, hR, hstuck, add_bonus]

/-- Witness for c7_count_and_default at n = 3, s = 6. -/
theorem c7_count_and_default_witness :
    DiceSet.parse (renderNat 3 ++ 'D' :: renderNat 6) =
      some ⟨List.replicate 3 (Dice.Regular 6)⟩ ∧
    DiceSet.parse ('D' :: renderNat 6) = DiceSet.parse (renderNat 1 ++ 'D' :: renderNat 6) :=
  c7_count_and_default 3 6 (by decide) (by decide) (by decide)

/-- Claim C8: all bonus tokens of a dice expression are folded into one net
bonus (the i8 sum of the token list), and a Bonus term is appended to the
parsed DiceSet only when that net sum is nonzero. -/
theorem c8_net_bonus (i r1 : Input) (ds : DiceSet) (r2 : Input) (vs : List Int)
    (h1 : parse_ndices i = some (r1, ds)) (h2 : manyBonus r1 = (r2, vs)) :
    parse_with_bonus i =
      some (r2, ⟨ds.terms ++ (if sum1 vs = 0 then [] else [Dice.Bonus (sum1 vs)])⟩) := by
  by_cases hz : sum1 vs = 0
  · simp [parse_with_bonus, parse_nbonus, h1, h2, add_bonus, hz]
  · simp [parse_with_bonus, parse_nbonus, h1, h2, add_bonus, hz]

/-- Witness for c8_net_bonus on "D6 +1 +2 -3": the tokens 1, 2, -3 sum to
0, so no Bonus term is appended and only Regular(6) remains. -/
theorem c8_net_bonus_witness :
    parse_with_bonus "D6 +1 +2 -3".toList =
      some (([] : Input),
        ⟨[Dice.Regular 6] ++
          (if sum1 [1, 2, -3] = 0 then [] else [Dice.Bonus (sum1 [1, 2, -3])])⟩) :=
  c8_net_bonus "D6 +1 +2 -3".toList " +1 +2 -3".toList ⟨[Dice.Regular 6]⟩ []
    [1, 2, -3] (by decide) (by decide)

/- ## Lemmas about the command resolver -/

namespace Compiler

/-- A usable command name: nonempty and entirely alphanumeric, so that
parse_keyword consumes it whole. -/
def goodName (n : List Char) : Bool := (!n.isEmpty) && n.all Char.isAlphanum

/-- The head of a name list, or the terminal name when the list is empty. -/
def nextOf (names : List (List Char)) (t : List Char) : List Char :=
  match names with
  | [] => t
  | n :: _ => n

/-- The registry binds every listed name to a Macro whose body is the next
name of the chain (the last one pointing at the terminal name t). -/
def isChainB (R : Registry) : List (List Char) → List Char → Bool
  | [], _ => true
  | n :: rest, t =>
      decide (getCmd R n = some (Command.Macro n (nextOf rest t))) && isChainB R rest t

theorem goodName_ne_nil {n : List Char} (h : goodName n = true) : n ≠ [] := by
  intro hn
  subst hn
  simp [goodName] at h

theorem parse_keyword_good {n : List Char} (h : goodName n = true) :
    parse_keyword n = some ([], n) := by
  unfold goodName at h
  rw [Bool.and_eq_true] at h
  obtain ⟨hne, hall⟩ := h
  have hall2 : ∀ c ∈ n, Char.isAlphanum c = true := List.all_eq_true.mp hall
  have h1 : n.takeWhile Char.isAlphanum = n := by
    have := takeWhile_append_of_all Char.isAlphanum n [] hall2
    simpa using this
  have h2 : n.dropWhile Char.isAlphanum = [] := by
    have := dropWhile_append_of_all Char.isAlphanum n [] hall2
    simpa using this
  unfold parse_keyword
  rw [h1, h2]
  simp at hne
  simp [hne]

theorem cparse_good {reg : Registry} {n : List Char} {cmd : Command}
    (hn : goodName n = true) (hc : getCmd reg n = some cmd) :
    cparse reg n = Except.ok (([] : List Char), cmd) := by
  unfold cparse
  rw [parse_keyword_good hn]
  simp [hc]

theorem recurseBody_alias {reg : Registry} {input rest n b : List Char}
    {seen : List (List Char)}
    (hp : cparse reg input = Except.ok (rest, Command.Alias n b))
    (hne : n ≠ []) (hns : n ∉ seen)
    (k : List Char → List (List Char) → Except (List Char) (List Char × Command)) :
    recurseBody reg input seen k = k (b ++ rest) (n :: seen) := by
  unfold recurseBody
  rw [hp]
  simp [hne, hns]

theorem recurseBody_macroStep {reg : Registry} {input rest n b : List Char}
    {seen : List (List Char)}
    (hp : cparse reg input = Except.ok (rest, Command.Macro n b))
    (hne : n ≠ []) (hns : n ∉ seen)
    (k : List Char → List (List Char) → Except (List Char) (List Char × Command)) :
    recurseBody reg input seen k = k (b ++ rest) (n :: seen) := by
  unfold recurseBody
  rw [hp]
  simp [hne, hns]

theorem recurseBody_alias_cycle {reg : Registry} {input rest n b : List Char}
    {seen : List (List Char)}
    (hp : cparse reg input = Except.ok (rest, Command.Alias n b))
    (hne : n ≠ []) (hns : n ∈ seen)
    (k : List Char → List (List Char) → Except (List Char) (List Char × Command)) :
    recurseBody reg input seen k = Except.error (msgCycle n) := by
  unfold recurseBody
  rw [hp]
  simp [hne, hns]

theorem recurseBody_builtin {reg : Registry} {input rest t : List Char} {c : Cmd}
    {seen : List (List Char)}
    (hp : cparse reg input = Except.ok (rest, Command.Builtin t c))
    (k : List Char → List (List Char) → Except (List Char) (List Char × Command)) :
    recurseBody reg input seen k = Except.ok (rest, Command.Builtin t c) := by
  unfold recurseBody
  rw [hp]
  simp

/-- One resolution step on a Macro that was not seen yet, with enough bound
left: substitute the body and continue with the decremented bound. -/
theorem recurseAux_macroStep {reg : Registry} {input rest n b : List Char}
    {seen : List (List Char)} {m : Nat}
    (hp : cparse reg input = Except.ok (rest, Command.Macro n b))
    (hne : n ≠ []) (hns : n ∉ seen) (hm : 2 ≤ m) :
    recurseAux reg m input seen = recurseAux reg (m - 1) (b ++ rest) (n :: seen) := by
  obtain _ | _ | m' := m
  · omega
  · omega
  · simp only [recurseAux]
    rw [recurseBody_macroStep hp hne hns]
    rfl

/-- One resolution step on a Macro when the bound is exhausted. -/
theorem recurseAux_macro_exhausted {reg : Registry} {input rest n b : List Char}
    {seen : List (List Char)} {m : Nat}
    (hp : cparse reg input = Except.ok (rest, Command.Macro n b))
    (hne : n ≠ []) (hns : n ∉ seen) (hm : m ≤ 1) :
    recurseAux reg m input seen = Except.error (msgMaxRec (b ++ rest)) := by
  obtain _ | _ | m' := m
  · simp only [recurseAux]; rw [recurseBody_macroStep hp hne hns]
  · simp only [recurseAux]; rw [recurseBody_macroStep hp hne hns]
  · omega

/-- One resolution step on an Alias that was not seen yet, with enough
bound left. -/
theorem recurseAux_step_alias {reg : Registry} {input rest n b : List Char}
    {seen : List (List Char)} {m : Nat}
    (hp : cparse reg input = Except.ok (rest, Command.Alias n b))
    (hne : n ≠ []) (hns : n ∉ seen) (hm : 2 ≤ m) :
    recurseAux reg m input seen = recurseAux reg (m - 1) (b ++ rest) (n :: seen) := by
  obtain _ | _ | m' := m
  · omega
  · omega
  · simp only [recurseAux]
    rw [recurseBody_alias hp hne hns]
    rfl

/-- An Alias whose name is already in the seen set fails immediately with
the cycle error, whatever the remaining bound. -/
theorem recurseAux_alias_cycle {reg : Registry} {input rest n b : List Char}
    {seen : List (List Char)} {m : Nat}
    (hp : cparse reg input = Except.ok (rest, Command.Alias n b))
    (hne : n ≠ []) (hns : n ∈ seen) :
    recurseAux reg m input seen = Except.error (msgCycle n) := by
  obtain _ | _ | m' := m
  · simp only [recurseAux]; rw [recurseBody_alias_cycle hp hne hns]
  · simp only [recurseAux]; rw [recurseBody_alias_cycle hp hne hns]
  · simp only [recurseAux]; rw [recurseBody_alias_cycle hp hne hns]

/-- Resolution ends as soon as a Builtin is reached, whatever the bound. -/
theorem recurseAux_builtin {reg : Registry} {input rest t : List Char} {c : Cmd}
    {seen : List (List Char)} {m : Nat}
    (hp : cparse reg input = Except.ok (rest, Command.Builtin t c)) :
    recurseAux reg m input seen = Except.ok (rest, Command.Builtin t c) := by
  obtain _ | _ | m' := m
  · simp only [recurseAux]; rw [recurseBody_builtin hp]
  · simp only [recurseAux]; rw [recurseBody_builtin hp]
  · simp only [recurseAux]; rw [recurseBody_builtin hp]

/-- Resolution along a macro chain: with fuel m, a chain of k distinct
macros ending in a Builtin resolves to the Builtin when k ≤ m - 1 and fails
with the max-recursion error otherwise; the failing message carries the
input that was about to be resolved next. -/
theorem recurse_chain (R : Registry) (t : List Char) (c : Cmd) :
    ∀ (names : List (List Char)) (m : Nat) (seen : List (List Char)),
      isChainB R names t = true →
      getCmd R t = some (Command.Builtin t c) →
      names.Nodup →
      (∀ n ∈ names, goodName n = true) →
      (∀ n ∈ names, n ∉ seen) →
      goodName t = true →
      recurseAux R m (nextOf names t) seen =
        (if names.length ≤ m - 1
         then Except.ok (([] : List Char), Command.Builtin t c)
         else Except.error (msgMaxRec (nextOf (names.drop (max m 1)) t))) := by
  intro names
  induction names with
  | nil =>
      intro m seen _ hT _ _ _ hgt
      have h0 : nextOf ([] : List (List Char)) t = t := rfl
      rw [h0, recurseAux_builtin (cparse_good hgt hT)]
      simp
  | cons n rest ih =>
      intro m seen hch hT hnd hgood hseen hgt
      rw [isChainB, Bool.and_eq_true, decide_eq_true_eq] at hch
      obtain ⟨hc1, hc2⟩ := hch
      have hgn : goodName n = true := hgood n (List.mem_cons_self n rest)
      have hp : cparse R n = Except.ok (([] : List Char), Command.Macro n (nextOf rest t)) :=
        cparse_good hgn hc1
      have hne : n ≠ [] := goodName_ne_nil hgn
      have hns : n ∉ seen := hseen n (List.mem_cons_self n rest)
      have hnext : nextOf (n :: rest) t = n := rfl
      rw [hnext]
      obtain ⟨hnr, hndr⟩ := List.nodup_cons.mp hnd
      have hseen2 : ∀ x ∈ rest, x ∉ n :: seen := by
        intro x hx hmem
        rcases List.mem_cons.mp hmem with h1 | h2
        · exact hnr (h1 ▸ hx)
        · exact hseen x (List.mem_cons_of_mem _ hx) h2
      by_cases hm : 2 ≤ m
      · obtain ⟨m2, rfl⟩ : ∃ m2, m = m2 + 2 := ⟨m - 2, by omega⟩
        rw [recurseAux_macroStep hp hne hns hm, List.append_nil]
        rw [ih (m2 + 2 - 1) (n :: seen) hc2 hT hndr
          (fun x hx => hgood x (List.mem_cons_of_mem _ hx)) hseen2 hgt]
        have hmax1 : max (m2 + 2) 1 = m2 + 2 := max_eq_left (by omega)
        have hmax2 : max (m2 + 1) 1 = m2 + 1 := max_eq_left (by omega)
        by_cases hk : rest.length ≤ m2
        · rw [if_pos (by omega : rest.length ≤ m2 + 2 - 1 - 1),
            if_pos (by simp; omega : (n :: rest).length ≤ m2 + 2 - 1)]
        · rw [if_neg (by omega : ¬rest.length ≤ m2 + 2 - 1 - 1),
            if_neg (by simp; omega : ¬(n :: rest).length ≤ m2 + 2 - 1)]
          rw [show m2 + 2 - 1 = m2 + 1 from rfl, hmax1, hmax2,
            show m2 + 2 = m2 + 1 + 1 from rfl, List.drop_succ_cons]
      · rw [recurseAux_macro_exhausted hp hne hns (by omega), List.append_nil]
        rw [if_neg (by simp; omega : ¬(n :: rest).length ≤ m - 1)]
        have hmax : max m 1 = 1 := by omega
        rw [hmax, show (1 : Nat) = 0 + 1 from rfl, List.drop_succ_cons, List.drop_zero]

theorem getCmd_cons_self (R : Registry) (n : List Char) (c : Command) :
    getCmd ((n, c) :: R) n = some c := by
  simp [getCmd, List.find?]

theorem getCmd_cons_ne (R : Registry) {n m : List Char} (c : Command) (h : n ≠ m) :
    getCmd ((n, c) :: R) m = getCmd R m := by
  have hb : (n == m) = false := by simpa using h
  simp [getCmd, List.find?, hb]

/- ## Claims C3 and C4: the command resolver -/

/-- Claim C3: with a registry binding Alias a with target b and Alias b
with target a, compiling a fails with the cycle-detected error (the visited
set fires on the second occurrence of a), not the max-recursion error. -/
theorem c3_alias_cycle (a b : List Char) (hga : goodName a = true)
    (hgb : goodName b = true) (hab : a ≠ b) :
    compile [(a, Command.Alias a b), (b, Command.Alias b a)] a =
      Action.Error (msgCycle a) := by
  have hA : getCmd [(a, Command.Alias a b), (b, Command.Alias b a)] a =
      some (Command.Alias a b) := getCmd_cons_self _ _ _
  have hB : getCmd [(a, Command.Alias a b), (b, Command.Alias b a)] b =
      some (Command.Alias b a) := by
    rw [getCmd_cons_ne _ _ hab]
    exact getCmd_cons_self _ _ _
  have hpA := cparse_good hga hA
  have hpB := cparse_good hgb hB
  have hneA := goodName_ne_nil hga
  have hneB := goodName_ne_nil hgb
  unfold compile recurse
  rw [show (none : Option Nat).getD MAX_RECUR = MAX_RECUR from rfl]
  rw [recurseAux_step_alias hpA hneA (by simp) (by decide), List.append_nil]
  rw [recurseAux_step_alias hpB hneB (by simpa using hab.symm) (by decide),
    List.append_nil]
  rw [recurseAux_alias_cycle hpA hneA (by simp)]

/-- Witness for c3_alias_cycle with the names A and B. -/
theorem c3_alias_cycle_witness :
    compile [("A".toList, Command.Alias "A".toList "B".toList),
             ("B".toList, Command.Alias "B".toList "A".toList)] "A".toList =
      Action.Error (msgCycle "A".toList) :=
  c3_alias_cycle "A".toList "B".toList (by decide) (by decide) (by decide)

/-- Claim C4: for a registry holding a chain of distinct nested macros
ending in a Builtin, compiling the chain head fails with the max-recursion
error when the chain length equals MAX_RECUR, and succeeds — returning an
Execute action carrying the terminal Builtin — when it is MAX_RECUR - 1. -/
theorem c4_macro_chain_depth (R : Registry) (names : List (List Char))
    (t : List Char) (c : Cmd)
    (hch : isChainB R names t = true)
    (hT : getCmd R t = some (Command.Builtin t c))
    (hnd : names.Nodup)
    (hgood : ∀ n ∈ names, goodName n = true)
    (hgt : goodName t = true) :
    (names.length = MAX_RECUR →
       compile R (nextOf names t) = Action.Error (msgMaxRec t)) ∧
    (names.length = MAX_RECUR - 1 →
       compile R (nextOf names t) = Action.Execute (Command.Builtin t c) []) := by
  have hchain := recurse_chain R t c names MAX_RECUR []
    hch hT hnd hgood (by simp) hgt
  constructor
  · intro hlen
    unfold compile recurse
    rw [show (none : Option Nat).getD MAX_RECUR = MAX_RECUR from rfl]
    rw [hchain, if_neg (by rw [hlen]; decide)]
    rw [show max MAX_RECUR 1 = MAX_RECUR from rfl, ← hlen, List.drop_length]
    rfl
  · intro hlen
    unfold compile recurse
    rw [show (none : Option Nat).getD MAX_RECUR = MAX_RECUR from rfl]
    rw [hchain, if_pos (by rw [hlen])]

def c4Names10 : List (List Char) :=
  ["m0".toList, "m1".toList, "m2".toList, "m3".toList, "m4".toList,
   "m5".toList, "m6".toList, "m7".toList, "m8".toList, "m9".toList]

def c4Reg10 : Registry :=
  [("m0".toList, Command.Macro "m0".toList "m1".toList),
   ("m1".toList, Command.Macro "m1".toList "m2".toList),
   ("m2".toList, Command.Macro "m2".toList "m3".toList),
   ("m3".toList, Command.Macro "m3".toList "m4".toList),
   ("m4".toList, Command.Macro "m4".toList "m5".toList),
   ("m5".toList, Command.Macro "m5".toList "m6".toList),
   ("m6".toList, Command.Macro "m6".toList "m7".toList),
   ("m7".toList, Command.Macro "m7".toList "m8".toList),
   ("m8".toList, Command.Macro "m8".toList "m9".toList),
   ("m9".toList, Command.Macro "m9".toList "dice".toList),
   ("dice".toList, Command.Builtin "dice".toList Cmd.Dice)]

def c4Names9 : List (List Char) :=
  ["m0".toList, "m1".toList, "m2".toList, "m3".toList, "m4".toList,
   "m5".toList, "m6".toList, "m7".toList, "m8".toList]

def c4Reg9 : Registry :=
  [("m0".toList, Command.Macro "m0".toList "m1".toList),
   ("m1".toList, Command.Macro "m1".toList "m2".toList),
   ("m2".toList, Command.Macro "m2".toList "m3".toList),
   ("m3".toList, Command.Macro "m3".toList "m4".toList),
   ("m4".toList, Command.Macro "m4".toList "m5".toList),
   ("m5".toList, Command.Macro "m5".toList "m6".toList),
   ("m6".toList, Command.Macro "m6".toList "m7".toList),
   ("m7".toList, Command.Macro "m7".toList "m8".toList),
   ("m8".toList, Command.Macro "m8".toList "dice".toList),
   ("dice".toList, Command.Builtin "dice".toList Cmd.Dice)]

/-- Witness for c4_macro_chain_depth: a 10-macro chain fails with the
max-recursion error, a 9-macro chain resolves to the dice Builtin. -/
theorem c4_macro_chain_depth_witness :
    compile c4Reg10 "m0".toList = Action.Error (msgMaxRec "dice".toList) ∧
    compile c4Reg9 "m0".toList =
      Action.Execute (Command.Builtin "dice".toList Cmd.Dice) [] :=
  ⟨(c4_macro_chain_depth c4Reg10 c4Names10 "dice".toList Cmd.Dice
      (by decide) (by decide) (by decide) (by decide) (by decide)).1 (by decide),
   (c4_macro_chain_depth c4Reg9 c4Names9 "dice".toList Cmd.Dice
      (by decide) (by decide) (by decide) (by decide) (by decide)).2 (by decide)⟩

end Compiler
